import Mathlib

/-!
Verification development for the `flickr2blog` migration tool
(`src/flickr2blog.py`).  Strings are modelled as `List Char`; Python
dictionaries as association lists; the WordPress and Flickr network
services as explicit oracles.  Each stage of the pipeline is embedded as
an executable Lean function translated from the corresponding Python
function, and the stated properties are settled against those
definitions.
-/

namespace F2B

/-- Python strings are modelled as lists of characters. -/
abbrev Str := List Char

/-- Association-list lookup, modelling Python dictionary access `d[k]`
(`none` models a `KeyError`). -/
def alookup {α : Type} : List (Str × α) → Str → Option α
  | [], _ => none
  | (k, v) :: rest, key => if k = key then some v else alookup rest key

/-- Substring test, modelling Python `pat in s`. -/
def containsSub (pat : Str) : Str → Bool
  | [] => pat.isEmpty
  | c :: rest => pat.isPrefixOf (c :: rest) || containsSub pat rest

/-- Insert one binding into a Python-style dict: an existing key keeps its
position and its value is overwritten, a fresh key is appended. -/
def dictInsert {α : Type} (m : List (Str × α)) (k : Str) (v : α) : List (Str × α) :=
  if (alookup m k).isSome then m.map (fun p => if p.1 = k then (k, v) else p)
  else m ++ [(k, v)]

/-- Build a Python-style dict from a list of key/value pairs (as in the
dict comprehension `{s['label']: s for s in size_info}`). -/
def mkDict {α : Type} (l : List (Str × α)) : List (Str × α) :=
  l.foldl (fun m p => dictInsert m p.1 p.2) []

/-- One located occurrence of a Flickr URL in a post body, as recorded by
`process_posts` (`img_info` dict). -/
structure ImgRef where
  flickr_id : Str
  url : Str
  url_start : Nat
  url_end : Nat
  deriving DecidableEq, Repr

/-- One entry of a post's `upload_info` map, as written by `upload_to_wp`.
The fields are `Option` because `update_posts` reads the JSON catalog and
a missing key raises `KeyError` there. -/
structure UploadEntry where
  original_url : Option Str
  medium_url : Option Str
  deriving DecidableEq, Repr

/-- A blog post record, keeping the fields of the WordPress post JSON that
the tool reads or writes (`content` stands for `content.rendered`). -/
structure Post where
  id : Nat
  date : Str
  date_gmt : Str
  content : Str
  flickr_images : List ImgRef
  upload_info : Option (List (Str × UploadEntry))
  deriving DecidableEq, Repr

/-! ## Post discovery (`catalog_posts`) -/

/-- The hosting-service domain string the discovery filter looks for. -/
def flickrDomain : Str := "flickr.com".data

/-- The `for post in post_retriever(...)` loop body of `catalog_posts`:
append a post when its rendered body contains `flickr.com`, count it, and
break once a nonzero `limit` is reached. -/
def catalogLoop (limit : Nat) : Nat → List Post → List Post
  | _, [] => []
  | count, p :: rest =>
    if containsSub flickrDomain p.content then
      p :: (if limit ≠ 0 ∧ limit ≤ count + 1 then [] else catalogLoop limit (count + 1) rest)
    else
      catalogLoop limit count rest

/-- `catalog_posts`: filter the retrieved posts to those mentioning
`flickr.com`, stopping after `limit` matches when `limit` is nonzero
(`limit = 0` models an absent `--limit`). -/
def catalog_posts (limit : Nat) (posts : List Post) : List Post :=
  catalogLoop limit 0 posts

/-! ## Link extraction (`process_posts`)

The two regular expressions
`(https?://(?:www\.)?flickr\.com/photos/quentinsf/(\d{9,11})/?)[/"]` and
`(https?://(?:farm\d+\.)?static\.?flickr\.com/\d+/(\d+)_[^"]*\.jpg)"`
are embedded as deterministic matchers; every quantifier in them ranges
over single-character classes, so the greedy backtracking semantics of
`re` collapses into the explicit case analyses below. -/

/-- Consume a literal prefix, returning the rest of the input. -/
def dropLit (lit t : Str) : Option Str :=
  if lit.isPrefixOf t then some (t.drop lit.length) else none

def httpsLit : Str := "https://".data

def httpLit : Str := "http://".data

def wwwLit : Str := "www.".data

def photosLit : Str := "flickr.com/photos/quentinsf/".data

/-- Attempt `flickr_photo_re` at the start of `t`.  On success, return the
length of capture group 1 (the URL, without the final `[/"]` character of
the whole match) together with capture group 2 (the photo id). -/
def matchP1 (t : Str) : Option (Nat × Str) := do
  let t1 ← dropLit httpsLit t <|> dropLit httpLit t
  let t2 := (dropLit wwwLit t1).getD t1
  let t3 ← dropLit photosLit t2
  let ds := t3.takeWhile Char.isDigit
  if 9 ≤ ds.length ∧ ds.length ≤ 11 then
    let t4 := t3.drop ds.length
    match t4 with
    | '/' :: '/' :: _ => some (t.length - t4.length + 1, ds)
    | '/' :: '"' :: _ => some (t.length - t4.length + 1, ds)
    | '/' :: _ => some (t.length - t4.length, ds)
    | '"' :: _ => some (t.length - t4.length, ds)
    | _ => none
  else
    none

def farmLit : Str := "farm".data

def staticLit : Str := "static".data

def dotLit : Str := ".".data

def flickrComSlashLit : Str := "flickr.com/".data

def slashLit : Str := "/".data

def underLit : Str := "_".data

def jpgQuoteLit : Str := ".jpg\"".data

/-- Largest `k` (searching downwards, as the greedy `[^"]*` does) at which
`.jpg"` starts in `u`. -/
def searchJpgDown (u : Str) : Nat → Option Nat
  | 0 => if jpgQuoteLit.isPrefixOf u then some 0 else none
  | k + 1 =>
    if jpgQuoteLit.isPrefixOf (u.drop (k + 1)) then some (k + 1) else searchJpgDown u k

/-- Attempt `flickr_farm_photo_re` at the start of `t`; same output
convention as `matchP1`. -/
def matchP2 (t : Str) : Option (Nat × Str) := do
  let t1 ← dropLit httpsLit t <|> dropLit httpLit t
  let t2 := (do
      let a ← dropLit farmLit t1
      let ds := a.takeWhile Char.isDigit
      if 1 ≤ ds.length then dropLit dotLit (a.drop ds.length) else none).getD t1
  let t3 ← dropLit staticLit t2
  let t4 := (dropLit dotLit t3).getD t3
  let t5 ← dropLit flickrComSlashLit t4
  let ds1 := t5.takeWhile Char.isDigit
  if 1 ≤ ds1.length then
    let t6 ← dropLit slashLit (t5.drop ds1.length)
    let ds2 := t6.takeWhile Char.isDigit
    if 1 ≤ ds2.length then
      let t7 ← dropLit underLit (t6.drop ds2.length)
      let k ← searchJpgDown t7 (t7.takeWhile (fun c => c ≠ '"')).length
      some (t.length - t7.length + k + 4, ds2)
    else
      none
  else
    none

/-- `re.finditer`: scan left to right, resuming after the end of each
(whole) match; for both patterns the whole match is capture group 1 plus
one final character. -/
def scanWith (m : Str → Option (Nat × Str)) : Str → Nat → List ImgRef
  | [], _ => []
  | c :: rest, i =>
    match m (c :: rest) with
    | some (g1len, fid) =>
      { flickr_id := fid, url := (c :: rest).take g1len, url_start := i, url_end := i + g1len }
        :: scanWith m ((c :: rest).drop (g1len + 1)) (i + g1len + 1)
    | none => scanWith m rest (i + 1)
  termination_by t _ => t.length
  decreasing_by
    · simp only [List.length_drop, List.length_cons]
      omega
    · simp only [List.length_cons]
      omega

/-- All image references of a body: matches of the photo-page pattern
followed by matches of the farm pattern (`itertools.chain`). -/
def extractImages (content : Str) : List ImgRef :=
  scanWith matchP1 content 0 ++ scanWith matchP2 content 0

/-- `process_posts`: overwrite each post's `flickr_images` with the
references extracted from its (unmodified) body. -/
def process_posts (posts : List Post) : List Post :=
  posts.map fun p => { p with flickr_images := extractImages p.content }

/-! ## Image metadata catalog (`catalog_images`) -/

/-- One size variant from `flickr.photos.getSizes`. -/
structure SizeRec where
  label : Str
  source : Str
  deriving DecidableEq, Repr

/-- Result of `flickr.photos.getInfo`. -/
structure PhotoInfo where
  photo_id : Str
  deriving DecidableEq, Repr

/-- One record of the image catalog: the photo info with the size map
merged in under `sizes`. -/
structure PhotoRecord where
  info : PhotoInfo
  sizes : List (Str × SizeRec)
  deriving DecidableEq, Repr

/-- The Flickr service, as an oracle; `Except.error` models a raised
`flickrapi.exceptions.FlickrError`. -/
structure FlickrAPI where
  getInfo : Str → Except Str PhotoInfo
  getSizes : Str → Except Str (List SizeRec)

/-- The body of the `try` block in `catalog_images`: both service calls,
then the size-dict merge. -/
def fetchPhoto (api : FlickrAPI) (fid : Str) : Except Str PhotoRecord := do
  let info ← api.getInfo fid
  let sz ← api.getSizes fid
  pure { info := info, sizes := mkDict (sz.map fun s => (s.label, s)) }

def exOk {ε α : Type} : Except ε α → Option α
  | .ok a => some a
  | .error _ => none

def exErr {ε α : Type} : Except ε α → Option ε
  | .ok _ => none
  | .error e => some e

/-- `catalog_images`: iterate over all posts and their references,
appending a record per successful fetch and a log entry per caught
`FlickrError`. -/
def catalog_images (api : FlickrAPI) (posts : List Post) : List PhotoRecord × List Str :=
  posts.foldl
    (fun acc p =>
      p.flickr_images.foldl
        (fun acc2 img =>
          match fetchPhoto api img.flickr_id with
          | .ok r => (acc2.1 ++ [r], acc2.2)
          | .error e => (acc2.1, acc2.2 ++ [e]))
        acc)
    ([], [])

/-- The sequence of photo ids visited by the nested loops of
`catalog_images`. -/
def postImageIds (posts : List Post) : List Str :=
  (posts.map fun p => p.flickr_images.map fun i => i.flickr_id).flatten

/-! ## Image retrieval (`download_images`): filename selection -/

def m800Label : Str := "Medium 800".data

def m640Label : Str := "Medium 640".data

def mPlainLabel : Str := "Medium".data

/-- The local filenames `download_photo` uses: the original is always
`<id>.jpg`; the medium filename depends on which size variants exist and
is `none` when no medium variant is available. -/
def download_photo_files (fid : Str) (sizes : List (Str × SizeRec)) : Str × Option Str :=
  (fid ++ ".jpg".data,
    if (alookup sizes m800Label).isSome then some (fid ++ "_800.jpg".data)
    else if (alookup sizes m640Label).isSome then some (fid ++ "_640.jpg".data)
    else if (alookup sizes mPlainLabel).isSome then some (fid ++ "_medium.jpg".data)
    else none)

/-! ## Re-hosting (`upload_to_wp`) -/

/-- The original-size local filename recomputed by `upload_to_wp`. -/
def upload_original_file (fid : Str) : Str := fid ++ ".jpg".data

/-- The medium local filename recomputed by `upload_to_wp` (always the
`_800` name, regardless of which variant was downloaded). -/
def upload_medium_file (fid : Str) : Str := fid ++ "_800.jpg".data

/-- One call to the WordPress media endpoint (`upload_media`). -/
structure UploadCall where
  file : Str
  postId : Nat
  date : Str
  date_gmt : Str
  description : Str
  deriving DecidableEq, Repr

/-- The `description` field of the `photo_data` sent with an upload. -/
def descriptionFor (fid : Str) : Str :=
  "Flickr item ".data ++ fid ++ ".".data

/-- The body of the inner `for img_info in post['flickr_images']` loop of
`upload_to_wp`: skip ids already in `upload_info`, consult the
already-uploaded memo per filename, otherwise call the media endpoint
(`up` is the oracle giving the returned attachment URL). -/
def uploadStep (pid : Nat) (pdate pdateGmt : Str) (already : List (Str × Str))
    (up : Str → Str) (acc : List (Str × UploadEntry) × List UploadCall) (img : ImgRef) :
    List (Str × UploadEntry) × List UploadCall :=
  if (alookup acc.1 img.flickr_id).isSome then acc
  else
    let ofile := upload_original_file img.flickr_id
    let mfile := upload_medium_file img.flickr_id
    let orig :=
      match alookup already ofile with
      | some u => (u, ([] : List UploadCall))
      | none => (up ofile, [⟨ofile, pid, pdate, pdateGmt, descriptionFor img.flickr_id⟩])
    let med :=
      match alookup already mfile with
      | some u => (u, ([] : List UploadCall))
      | none => (up mfile, [⟨mfile, pid, pdate, pdateGmt, descriptionFor img.flickr_id⟩])
    (acc.1 ++ [(img.flickr_id, ⟨some orig.1, some med.1⟩)], acc.2 ++ orig.2 ++ med.2)

/-- Process one post in `upload_to_wp`: initialise `upload_info` to `{}`
when absent, then run the inner loop. -/
def uploadPost (already : List (Str × Str)) (up : Str → Str) (p : Post) :
    Post × List UploadCall :=
  let r := p.flickr_images.foldl (uploadStep p.id p.date p.date_gmt already up)
    (p.upload_info.getD [], [])
  ({ p with upload_info := some r.1 }, r.2)

/-- `upload_to_wp`: optionally truncate the catalog, process every post,
return the catalog that is written back together with all media-upload
calls issued. -/
def upload_to_wp (limit : Nat) (already : List (Str × Str)) (up : Str → Str)
    (posts : List Post) : List Post × List UploadCall :=
  (if limit = 0 then posts else posts.take limit).foldl
    (fun acc p =>
      (acc.1 ++ [(uploadPost already up p).1], acc.2 ++ (uploadPost already up p).2))
    ([], [])

/-! ## Rewrite (`update_posts`) -/

/-- Python slice index resolution: negative indices count from the end and
both bounds are clamped to `[0, len]`. -/
def pyBound (len : Nat) (i : Int) : Nat :=
  if i < 0 then ((len : Int) + i).toNat else min i.toNat len

/-- Python slicing `s[a:b]` with possibly negative bounds. -/
def pySlice (s : Str) (a b : Int) : Str :=
  (s.take (pyBound s.length b)).drop (pyBound s.length a)

def hrefMark : Str := "href=\"".data

def srcMark : Str := "src=\"".data

/-- The `k` characters of `content` immediately preceding position `u`
(all of them when fewer than `k` precede). -/
def precChars (content : Str) (u k : Nat) : Str :=
  (content.take u).drop (u - k)

def lookupOriginalUrl (uinfo : Option (List (Str × UploadEntry))) (fid : Str) : Option Str := do
  let m ← uinfo
  let e ← alookup m fid
  e.original_url

def lookupMediumUrl (uinfo : Option (List (Str × UploadEntry))) (fid : Str) : Option Str := do
  let m ← uinfo
  let e ← alookup m fid
  e.medium_url

/-- The context classification and `upload_info` lookup of the `try` block
in `update_posts`: inspect the characters before `url_start` in the
original body, then pick the original-size or medium URL; `none` models a
`KeyError` (missing `upload_info`, missing id, or missing URL key). -/
def chooseUrl (content : Str) (uinfo : Option (List (Str × UploadEntry)))
    (fid : Str) (url_start : Nat) : Option Str :=
  if pySlice content ((url_start : Int) - 6) (url_start : Int) = hrefMark then
    lookupOriginalUrl uinfo fid
  else if pySlice content ((url_start : Int) - 5) (url_start : Int) = srcMark then
    lookupMediumUrl uinfo fid
  else
    lookupMediumUrl uinfo fid

/-- The log line printed when a reference has no upload info. -/
def noInfoMsg (fid : Str) : Str := "No upload info for ".data ++ fid

/-- One iteration of the `for img in flickr_images` loop: splice the new
URL over `[url_start, url_end)` of the evolving body, or log and skip on a
`KeyError`. -/
def rewriteStep (content : Str) (uinfo : Option (List (Str × UploadEntry)))
    (acc : Str × List Str) (img : ImgRef) : Str × List Str :=
  match chooseUrl content uinfo img.flickr_id img.url_start with
  | some newUrl => (acc.1.take img.url_start ++ newUrl ++ acc.1.drop img.url_end, acc.2)
  | none => (acc.1, acc.2 ++ [noInfoMsg img.flickr_id])

/-- `sorted(post['flickr_images'], key=lambda x: x['url_start'],
reverse=True)`: a stable descending sort (insertion sort with this
relation is stable exactly like Python's `sorted`). -/
def sortRefsDesc (l : List ImgRef) : List ImgRef :=
  List.insertionSort (fun a b => b.url_start ≤ a.url_start) l

/-- Rewrite one body: process the references in descending `url_start`
order, starting from the original body, collecting skip-log messages. -/
def rewriteBody (content : Str) (uinfo : Option (List (Str × UploadEntry)))
    (imgs : List ImgRef) : Str × List Str :=
  (sortRefsDesc imgs).foldl (rewriteStep content uinfo) (content, [])

/-- One call to the WordPress post-update endpoint. -/
structure UpdateCall where
  postId : Nat
  content : Str
  deriving DecidableEq, Repr

/-- Process one post in `update_posts`: rewrite the body and issue an
update call only when the body changed. -/
def rewritePost (p : Post) : Post × List UpdateCall × List Str :=
  let r := rewriteBody p.content p.upload_info p.flickr_images
  if r.1 ≠ p.content then ({ p with content := r.1 }, [⟨p.id, r.1⟩], r.2)
  else (p, [], r.2)

/-- The exact confirmation literal required by the safety gate. -/
def yesStr : Str := "YES".data

/-- `update_posts`: truncate to `limit`, then require the typed
confirmation to be exactly `YES` before rewriting anything; return the
in-memory posts, the update calls issued, and the skip logs. -/
def update_posts (confirmation : Str) (limit : Nat) (posts : List Post) :
    List Post × List UpdateCall × List Str :=
  let ps := if limit = 0 then posts else posts.take limit
  if confirmation = yesStr then
    ((ps.map fun p => (rewritePost p).1),
      (ps.map fun p => (rewritePost p).2.1).flatten,
      (ps.map fun p => (rewritePost p).2.2).flatten)
  else
    (ps, [], [])

/-! ## The splicing skeleton of the rewrite loop -/

/-- A substitution span: offsets into the original body plus the
replacement text. -/
structure Span where
  url_start : Nat
  url_end : Nat
  rep : Str
  deriving DecidableEq, Repr

instance (a b : Span) :
    Decidable (a.url_end ≤ b.url_start ∨ b.url_end ≤ a.url_start) :=
  inferInstanceAs (Decidable (_ ∨ _))

instance : IsTotal Span (fun a b => b.url_start ≤ a.url_start) :=
  ⟨fun a b => Nat.le_total b.url_start a.url_start⟩

instance : IsTrans Span (fun a b => b.url_start ≤ a.url_start) :=
  ⟨fun _ _ _ h1 h2 => Nat.le_trans h2 h1⟩

instance : IsTotal Span (fun a b => a.url_start ≤ b.url_start) :=
  ⟨fun a b => Nat.le_total a.url_start b.url_start⟩

instance : IsTrans Span (fun a b => a.url_start ≤ b.url_start) :=
  ⟨fun _ _ _ h1 h2 => Nat.le_trans h1 h2⟩

/-- `new_content[:url_start] + new_url + new_content[url_end:]`. -/
def splice (s : Str) (a b : Nat) (r : Str) : Str :=
  s.take a ++ r ++ s.drop b

/-- Python's stable descending sort by `url_start`, for spans. -/
def sortSpansDesc (l : List Span) : List Span :=
  List.insertionSort (fun a b => b.url_start ≤ a.url_start) l

/-- The rewrite loop's procedure on bare spans: sort by descending
`url_start`, then splice each replacement into the evolving string. -/
def seqSplice (s : Str) (spans : List Span) : Str :=
  (sortSpansDesc spans).foldl (fun nc sp => splice nc sp.url_start sp.url_end sp.rep) s

/-- Stable ascending sort by `url_start`. -/
def sortSpansAsc (l : List Span) : List Span :=
  List.insertionSort (fun a b => a.url_start ≤ b.url_start) l

/-- Emit the segments of a one-pass simultaneous substitution, the spans
being given in ascending start order and `pos` being the cursor into the
original string. -/
def simulFrom (s : Str) : Nat → List Span → Str
  | pos, [] => s.drop pos
  | pos, sp :: rest =>
    (s.drop pos).take (sp.url_start - pos) ++ sp.rep ++ simulFrom s sp.url_end rest

/-- Modelled from the spec: substituting all spans simultaneously in one
pass against the original string, using the original offsets. -/
def simulSubst (s : Str) (spans : List Span) : Str :=
  simulFrom s 0 (sortSpansAsc spans)

/-! ## Theorems -/

theorem catalogLoop_zero (posts : List Post) :
    ∀ count, catalogLoop 0 count posts =
      posts.filter fun p => containsSub flickrDomain p.content := by
  induction posts with
  | nil => intro count; rfl
  | cons p rest ih =>
    intro count
    by_cases h : containsSub flickrDomain p.content
    · simp [catalogLoop, h, List.filter_cons, ih]
    · simp [catalogLoop, h, List.filter_cons, ih]

theorem catalogLoop_pos (posts : List Post) :
    ∀ limit count, 0 < limit → count < limit →
      catalogLoop limit count posts =
        (posts.filter fun p => containsSub flickrDomain p.content).take (limit - count) := by
  induction posts with
  | nil => intro limit count _ _; simp [catalogLoop]
  | cons p rest ih =>
    intro limit count hl hc
    by_cases h : containsSub flickrDomain p.content
    · by_cases hb : limit ≤ count + 1
      · have h1 : limit - count = 1 := by omega
        have h0 : limit ≠ 0 := by omega
        simp [catalogLoop, h, hb, h0, h1, List.filter_cons]
      · have h2 : count + 1 < limit := by omega
        have h3 : limit - count = (limit - (count + 1)) + 1 := by omega
        simp only [catalogLoop, h, if_pos, List.filter_cons]
        rw [if_neg (by omega), ih limit (count + 1) hl h2, h3]
        simp [List.take_succ_cons]
    · simp only [catalogLoop, List.filter_cons, h]
      rw [if_neg (by simp [h]), ih limit count hl hc]
      simp

/-- C3: discovery includes a retrieved post exactly when its rendered body
contains the substring `flickr.com`; with a positive limit the output is
the first `limit` matching posts in retrieval order (hence at most
`limit` posts). -/
theorem catalog_posts_filter_limit (limit : Nat) (posts : List Post) :
    catalog_posts 0 posts = (posts.filter fun p => containsSub flickrDomain p.content) ∧
      (0 < limit →
        catalog_posts limit posts =
          (posts.filter fun p => containsSub flickrDomain p.content).take limit) := by
  constructor
  · exact catalogLoop_zero posts 0
  · intro h
    have := catalogLoop_pos posts limit 0 h h
    simpa using this

/-- Witness for `catalog_posts_filter_limit` at a concrete catalog. -/
theorem catalog_posts_filter_limit_witness :
    (0 : Nat) < 1 ∧
      catalog_posts 1
          [⟨1, [], [], "see flickr.com now".data, [], none⟩,
           ⟨2, [], [], "no links".data, [], none⟩,
           ⟨3, [], [], "flickr.com again".data, [], none⟩] =
        [⟨1, [], [], "see flickr.com now".data, [], none⟩] := by
  refine ⟨by decide, ?_⟩
  have h := (catalog_posts_filter_limit 1
    [⟨1, [], [], "see flickr.com now".data, [], none⟩,
     ⟨2, [], [], "no links".data, [], none⟩,
     ⟨3, [], [], "flickr.com again".data, [], none⟩]).2 (by decide)
  rw [h]
  decide

/-- C4: link extraction is idempotent — a second run of `process_posts` on
the first run's output reproduces exactly the same `flickr_images` lists,
because extraction reads only the unmodified body and overwrites the
previous result. -/
theorem process_posts_idempotent (posts : List Post) :
    process_posts (process_posts posts) = process_posts posts := by
  induction posts with
  | nil => rfl
  | cons p rest ih =>
    simp only [process_posts, List.map_cons, List.map_map] at ih ⊢
    rw [ih]

/-- C7: any confirmation input other than the literal `YES` makes
`update_posts` return before the rewrite loop: the (possibly truncated)
posts are returned with no body changed and no update call issued. -/
theorem update_posts_confirmation_gate (confirmation : Str) (limit : Nat)
    (posts : List Post) (h : confirmation ≠ yesStr) :
    update_posts confirmation limit posts =
      (if limit = 0 then posts else posts.take limit, [], []) := by
  simp [update_posts, h]

/-- Witness for `update_posts_confirmation_gate`: a lowercase `yes` aborts
with the catalog untouched. -/
theorem update_posts_confirmation_gate_witness :
    update_posts "yes".data 0 [⟨7, [], [], "body flickr.com".data, [], none⟩] =
      ([⟨7, [], [], "body flickr.com".data, [], none⟩], [], []) := by
  have h := update_posts_confirmation_gate "yes".data 0
    [⟨7, [], [], "body flickr.com".data, [], none⟩] (by decide)
  simpa using h

/-- C10: the upload stage always recomputes the medium filename as
`<id>_800.jpg`, while the retrieval stage's medium filename agrees with it
exactly when the `Medium 800` variant exists in the size map. -/
theorem medium_filename_agreement (fid : Str) (sizes : List (Str × SizeRec)) :
    upload_medium_file fid = fid ++ "_800.jpg".data ∧
      ((download_photo_files fid sizes).2 = some (upload_medium_file fid) ↔
        (alookup sizes m800Label).isSome) := by
  refine ⟨rfl, ?_⟩
  unfold download_photo_files upload_medium_file
  by_cases h8 : (alookup sizes m800Label).isSome
  · simp [h8]
  · simp only [h8, if_false, iff_false, Bool.false_eq_true]
    by_cases h6 : (alookup sizes m640Label).isSome
    · simp only [h6, if_true]
      intro hcontra
      have := (List.append_right_inj fid).mp (Option.some.inj hcontra)
      simp at this
    · by_cases hm : (alookup sizes mPlainLabel).isSome
      · simp only [h6, hm, if_true, Bool.false_eq_true, if_false]
        intro hcontra
        have := (List.append_right_inj fid).mp (Option.some.inj hcontra)
        simp at this
      · simp [h6, hm]

theorem uploadFold_skip (pid : Nat) (d dg : Str) (already : List (Str × Str))
    (up : Str → Str) (imgs : List ImgRef) :
    ∀ (info : List (Str × UploadEntry)) (calls : List UploadCall),
      (∀ img ∈ imgs, (alookup info img.flickr_id).isSome) →
      imgs.foldl (uploadStep pid d dg already up) (info, calls) = (info, calls) := by
  induction imgs with
  | nil => intro info calls _; rfl
  | cons img rest ih =>
    intro info calls h
    have h1 := h img (List.mem_cons_self img rest)
    rw [List.foldl_cons]
    have hstep : uploadStep pid d dg already up (info, calls) img = (info, calls) := by
      simp [uploadStep, h1]
    rw [hstep]
    exact ih info calls fun i hi => h i (List.mem_cons_of_mem img hi)

theorem uploadPost_noop (already : List (Str × Str)) (up : Str → Str) (p : Post)
    (h : ∀ img ∈ p.flickr_images, (alookup (p.upload_info.getD []) img.flickr_id).isSome) :
    uploadPost already up p =
      ({ p with upload_info := some (p.upload_info.getD []) }, []) := by
  unfold uploadPost
  rw [uploadFold_skip p.id p.date p.date_gmt already up p.flickr_images
    (p.upload_info.getD []) [] h]

theorem uploadCatalogFold_noop (already : List (Str × Str)) (up : Str → Str)
    (ps : List Post) :
    ∀ (acc1 : List Post) (acc2 : List UploadCall),
      (∀ p ∈ ps, ∀ img ∈ p.flickr_images,
        (alookup (p.upload_info.getD []) img.flickr_id).isSome) →
      ps.foldl
          (fun acc p =>
            (acc.1 ++ [(uploadPost already up p).1], acc.2 ++ (uploadPost already up p).2))
          (acc1, acc2) =
        (acc1 ++ ps.map (fun p => { p with upload_info := some (p.upload_info.getD []) }),
          acc2) := by
  induction ps with
  | nil => intro acc1 acc2 _; simp
  | cons p rest ih =>
    intro acc1 acc2 h
    rw [List.foldl_cons, uploadPost_noop already up p (h p (List.mem_cons_self p rest))]
    simp only [List.append_nil]
    have hih := ih (acc1 ++ [{ p with upload_info := some (p.upload_info.getD []) }]) acc2
      fun q hq => h q (List.mem_cons_of_mem p hq)
    rw [hih]
    simp

/-- C5: on a catalog in which every reference's photo id already has an
`upload_info` entry, the upload stage issues no media-upload call and
rewrites every entry map unchanged (only materialising an absent map as
the empty one). -/
theorem upload_to_wp_noop_when_complete (limit : Nat) (already : List (Str × Str))
    (up : Str → Str) (posts : List Post)
    (h : ∀ p ∈ posts, ∀ img ∈ p.flickr_images,
      (alookup (p.upload_info.getD []) img.flickr_id).isSome) :
    upload_to_wp limit already up posts =
      ((if limit = 0 then posts else posts.take limit).map
          (fun p => { p with upload_info := some (p.upload_info.getD []) }),
        []) := by
  unfold upload_to_wp
  have hsub : ∀ p ∈ (if limit = 0 then posts else posts.take limit), ∀ img ∈ p.flickr_images,
      (alookup (p.upload_info.getD []) img.flickr_id).isSome := by
    intro p hp
    apply h
    rcases (em (limit = 0)) with h0 | h0
    · simpa [h0] using hp
    · rw [if_neg h0] at hp
      exact List.take_subset limit posts hp
  have := uploadCatalogFold_noop already up
    (if limit = 0 then posts else posts.take limit) [] [] hsub
  simpa using this

/-- Witness for `upload_to_wp_noop_when_complete` at a concrete catalog
with every entry present. -/
theorem upload_to_wp_noop_witness :
    upload_to_wp 0 [] (fun f => 'u' :: f)
        [⟨5, [], [], "b".data, [⟨"123".data, "u".data, 0, 1⟩],
          some [("123".data, ⟨some "O".data, some "M".data⟩)]⟩] =
      ([⟨5, [], [], "b".data, [⟨"123".data, "u".data, 0, 1⟩],
          some [("123".data, ⟨some "O".data, some "M".data⟩)]⟩], []) := by
  have h := upload_to_wp_noop_when_complete 0 [] (fun f => 'u' :: f)
    [⟨5, [], [], "b".data, [⟨"123".data, "u".data, 0, 1⟩],
      some [("123".data, ⟨some "O".data, some "M".data⟩)]⟩] (by decide)
  simpa using h

theorem imgFold_eq (api : FlickrAPI) (imgs : List ImgRef) :
    ∀ acc : List PhotoRecord × List Str,
      imgs.foldl
          (fun acc2 img =>
            match fetchPhoto api img.flickr_id with
            | .ok r => (acc2.1 ++ [r], acc2.2)
            | .error e => (acc2.1, acc2.2 ++ [e]))
          acc =
        (acc.1 ++ (imgs.map fun i => i.flickr_id).filterMap
            (fun fid => exOk (fetchPhoto api fid)),
          acc.2 ++ (imgs.map fun i => i.flickr_id).filterMap
            (fun fid => exErr (fetchPhoto api fid))) := by
  induction imgs with
  | nil => intro acc; simp
  | cons img rest ih =>
    intro acc
    rw [List.foldl_cons]
    cases hf : fetchPhoto api img.flickr_id with
    | ok r =>
      simp only [hf]
      rw [ih]
      simp [List.filterMap_cons, hf, exOk, exErr]
    | error e =>
      simp only [hf]
      rw [ih]
      simp [List.filterMap_cons, hf, exOk, exErr]

theorem catalog_images_eq (api : FlickrAPI) (posts : List Post) :
    catalog_images api posts =
      ((postImageIds posts).filterMap (fun fid => exOk (fetchPhoto api fid)),
        (postImageIds posts).filterMap (fun fid => exErr (fetchPhoto api fid))) := by
  unfold catalog_images
  suffices hgen : ∀ acc : List PhotoRecord × List Str,
      posts.foldl
          (fun acc p =>
            p.flickr_images.foldl
              (fun acc2 img =>
                match fetchPhoto api img.flickr_id with
                | .ok r => (acc2.1 ++ [r], acc2.2)
                | .error e => (acc2.1, acc2.2 ++ [e]))
              acc)
          acc =
        (acc.1 ++ (postImageIds posts).filterMap (fun fid => exOk (fetchPhoto api fid)),
          acc.2 ++ (postImageIds posts).filterMap (fun fid => exErr (fetchPhoto api fid))) by
    have := hgen ([], [])
    simpa using this
  induction posts with
  | nil => intro acc; simp [postImageIds]
  | cons p rest ih =>
    intro acc
    rw [List.foldl_cons, imgFold_eq api p.flickr_images acc, ih]
    simp [postImageIds, List.filterMap_append, List.append_assoc]

/-- C6: a `FlickrError` raised for one image is caught and logged, no
record for that image enters the image catalog, and the records produced
from the ids before and after it are exactly what they would have been
anyway. -/
theorem catalog_images_error_skips (api : FlickrAPI) (posts : List Post)
    (pre suf : List Str) (bad : Str) (e : Str)
    (hids : postImageIds posts = pre ++ bad :: suf)
    (herr : fetchPhoto api bad = .error e) :
    (catalog_images api posts).1 =
        pre.filterMap (fun fid => exOk (fetchPhoto api fid)) ++
          suf.filterMap (fun fid => exOk (fetchPhoto api fid)) ∧
      (catalog_images api posts).2 =
        pre.filterMap (fun fid => exErr (fetchPhoto api fid)) ++
          e :: suf.filterMap (fun fid => exErr (fetchPhoto api fid)) := by
  rw [catalog_images_eq api posts, hids]
  constructor
  · simp [List.filterMap_append, List.filterMap_cons, herr, exOk]
  · simp [List.filterMap_append, List.filterMap_cons, herr, exErr]

/-- Witness for `catalog_images_error_skips`: a two-image post whose first
id fails at the service. -/
theorem catalog_images_error_skips_witness :
    (catalog_images
        ⟨fun fid => if fid = "1".data then .error "gone".data else .ok ⟨fid⟩,
          fun _ => .ok []⟩
        [⟨3, [], [], "b".data,
          [⟨"1".data, "u1".data, 0, 1⟩, ⟨"2".data, "u2".data, 2, 3⟩], none⟩]).1 =
        [⟨⟨"2".data⟩, []⟩] ∧
      (catalog_images
          ⟨fun fid => if fid = "1".data then .error "gone".data else .ok ⟨fid⟩,
            fun _ => .ok []⟩
          [⟨3, [], [], "b".data,
            [⟨"1".data, "u1".data, 0, 1⟩, ⟨"2".data, "u2".data, 2, 3⟩], none⟩]).2 =
        ["gone".data] := by
  have h := catalog_images_error_skips
    ⟨fun fid => if fid = "1".data then .error "gone".data else .ok ⟨fid⟩,
      fun _ => .ok []⟩
    [⟨3, [], [], "b".data,
      [⟨"1".data, "u1".data, 0, 1⟩, ⟨"2".data, "u2".data, 2, 3⟩], none⟩]
    [] ["2".data] "1".data "gone".data (by decide) rfl
  constructor
  · rw [h.1]; decide
  · rw [h.2]; decide

theorem pyBound_natCast (len u : Nat) : pyBound len (u : Int) = min u len := by
  unfold pyBound
  rw [if_neg (by omega)]
  omega

theorem pyBound_sub (len u k : Nat) (hk : k ≤ u) :
    pyBound len ((u : Int) - k) = min (u - k) len := by
  unfold pyBound
  rw [if_neg (by omega)]
  congr 1
  omega

theorem pySlice_eq_precChars (content : Str) (u k : Nat) (a : Int)
    (ha : a = (u : Int) - k) (hk : k ≤ u) (hu : u ≤ content.length) :
    pySlice content a (u : Int) = precChars content u k := by
  subst ha
  unfold pySlice precChars
  rw [pyBound_sub content.length u k hk, pyBound_natCast]
  rw [Nat.min_eq_left (by omega), Nat.min_eq_left (by omega)]

theorem length_pySlice_le (content : Str) (u : Nat) (a : Int) :
    (pySlice content a (u : Int)).length ≤ u := by
  unfold pySlice
  rw [pyBound_natCast]
  simp only [List.length_drop, List.length_take]
  omega

theorem precChars_length (content : Str) (u k : Nat) (hu : u ≤ content.length) :
    (precChars content u k).length = min k u := by
  unfold precChars
  simp only [List.length_drop, List.length_take]
  omega

/-- C2: with the reference's upload entry present, the rewrite stage
substitutes the original-size URL exactly when the six characters
immediately preceding `url_start` are `href="`, and the medium URL both
when the five preceding characters are `src="` and in every other case. -/
theorem chooseUrl_context_classification (content : Str)
    (m : List (Str × UploadEntry)) (fid : Str) (u : Nat) (e : UploadEntry)
    (ou mu : Str) (hu : u ≤ content.length) (he : alookup m fid = some e)
    (ho : e.original_url = some ou) (hm : e.medium_url = some mu) :
    (precChars content u 6 = hrefMark → chooseUrl content (some m) fid u = some ou) ∧
      (precChars content u 6 ≠ hrefMark → precChars content u 5 = srcMark →
        chooseUrl content (some m) fid u = some mu) ∧
      (precChars content u 6 ≠ hrefMark → precChars content u 5 ≠ srcMark →
        chooseUrl content (some m) fid u = some mu) := by
  have horig : lookupOriginalUrl (some m) fid = some ou := by
    simp [lookupOriginalUrl, he, ho]
  have hmed : lookupMediumUrl (some m) fid = some mu := by
    simp [lookupMediumUrl, he, hm]
  have hhref_of_lt : u < 6 → pySlice content ((u : Int) - 6) (u : Int) ≠ hrefMark := by
    intro h6 hcontra
    have := congrArg List.length hcontra
    have hle := length_pySlice_le content u ((u : Int) - 6)
    rw [this] at hle
    simp [hrefMark] at hle
    omega
  have hsrc_of_lt : u < 5 → pySlice content ((u : Int) - 5) (u : Int) ≠ srcMark := by
    intro h5 hcontra
    have := congrArg List.length hcontra
    have hle := length_pySlice_le content u ((u : Int) - 5)
    rw [this] at hle
    simp [srcMark] at hle
    omega
  refine ⟨?_, ?_, ?_⟩
  · intro hpre
    have h6 : 6 ≤ u := by
      have := congrArg List.length hpre
      rw [precChars_length content u 6 hu] at this
      simp [hrefMark] at this
      omega
    unfold chooseUrl
    rw [if_pos (by rw [pySlice_eq_precChars content u 6 _ (by norm_num) h6 hu]; exact hpre)]
    exact horig
  · intro hpre hsrc
    have h5 : 5 ≤ u := by
      have := congrArg List.length hsrc
      rw [precChars_length content u 5 hu] at this
      simp [srcMark] at this
      omega
    have hhref : pySlice content ((u : Int) - 6) (u : Int) ≠ hrefMark := by
      by_cases h6 : 6 ≤ u
      · rw [pySlice_eq_precChars content u 6 _ (by norm_num) h6 hu]; exact hpre
      · exact hhref_of_lt (by omega)
    unfold chooseUrl
    rw [if_neg hhref,
      if_pos (by rw [pySlice_eq_precChars content u 5 _ (by norm_num) h5 hu]; exact hsrc)]
    exact hmed
  · intro hpre hsrc
    have hhref : pySlice content ((u : Int) - 6) (u : Int) ≠ hrefMark := by
      by_cases h6 : 6 ≤ u
      · rw [pySlice_eq_precChars content u 6 _ (by norm_num) h6 hu]; exact hpre
      · exact hhref_of_lt (by omega)
    have hsrc2 : pySlice content ((u : Int) - 5) (u : Int) ≠ srcMark := by
      by_cases h5 : 5 ≤ u
      · rw [pySlice_eq_precChars content u 5 _ (by norm_num) h5 hu]; exact hsrc
      · exact hsrc_of_lt (by omega)
    unfold chooseUrl
    rw [if_neg hhref, if_neg hsrc2]
    exact hmed

/-- Witness for `chooseUrl_context_classification`: an `href="` context
yields the original URL. -/
theorem chooseUrl_context_classification_witness :
    chooseUrl "href=\"x".data (some [("1".data, ⟨some "O".data, some "M".data⟩)])
        "1".data 6 =
      some "O".data := by
  have h := chooseUrl_context_classification "href=\"x".data
    [("1".data, ⟨some "O".data, some "M".data⟩)] "1".data 6
    ⟨some "O".data, some "M".data⟩ "O".data "M".data
    (by decide) (by decide) rfl rfl
  exact h.1 (by decide)

/-- C9: context classification is total and degenerates near the start of
the body: at `url_start = 0` both preceding-context slices are empty and
the default medium branch is taken; for `0 < url_start < 6` in a body
longer than 11 characters the wrapped-around slice `body[url_start-6:url_start]`
is empty, so the hyperlink branch is never taken and the medium URL is
always the one looked up. -/
theorem chooseUrl_degenerate_offsets (content : Str)
    (uinfo : Option (List (Str × UploadEntry))) (fid : Str) (u : Nat) :
    (u = 0 →
      pySlice content (-6) 0 = [] ∧ pySlice content (-5) 0 = [] ∧
        chooseUrl content uinfo fid 0 = lookupMediumUrl uinfo fid) ∧
      (0 < u → u < 6 → 11 < content.length →
        pySlice content ((u : Int) - 6) (u : Int) = [] ∧
          chooseUrl content uinfo fid u = lookupMediumUrl uinfo fid) := by
  constructor
  · intro _
    have h0 : ∀ a : Int, pySlice content a 0 = [] := by
      intro a
      unfold pySlice
      have : pyBound content.length 0 = 0 := by
        unfold pyBound
        rw [if_neg (by omega)]
        simp
      rw [this]
      simp
    refine ⟨h0 (-6), h0 (-5), ?_⟩
    unfold chooseUrl
    rw [if_neg (by rw [show ((0 : Nat) : Int) - 6 = -6 by omega,
          show ((0 : Nat) : Int) = 0 by omega, h0 (-6)]; decide),
      if_neg (by rw [show ((0 : Nat) : Int) - 5 = -5 by omega,
          show ((0 : Nat) : Int) = 0 by omega, h0 (-5)]; decide)]
  · intro hpos h6 hlen
    have hempty : pySlice content ((u : Int) - 6) (u : Int) = [] := by
      unfold pySlice
      rw [pyBound_natCast]
      have hlo : pyBound content.length ((u : Int) - 6) = content.length + u - 6 := by
        unfold pyBound
        rw [if_pos (by omega)]
        omega
      rw [hlo]
      apply List.drop_eq_nil_of_le
      simp only [List.length_take]
      omega
    refine ⟨hempty, ?_⟩
    unfold chooseUrl
    rw [if_neg (by rw [hempty]; decide)]
    by_cases hsrc : pySlice content ((u : Int) - 5) (u : Int) = srcMark
    · rw [if_pos hsrc]
    · rw [if_neg hsrc]

/-- Witness for `chooseUrl_degenerate_offsets` at `url_start = 0` and at
`url_start = 3` in a long body. -/
theorem chooseUrl_degenerate_offsets_witness :
    (pySlice "href=\"0123456789".data (-6) 0 = [] ∧
        pySlice "href=\"0123456789".data (-5) 0 = [] ∧
        chooseUrl "href=\"0123456789".data (some []) "1".data 0 =
          lookupMediumUrl (some []) "1".data) ∧
      (pySlice "href=\"0123456789".data ((3 : Nat) - 6 : Int) ((3 : Nat) : Int) = [] ∧
        chooseUrl "href=\"0123456789".data (some []) "1".data 3 =
          lookupMediumUrl (some []) "1".data) := by
  constructor
  · exact (chooseUrl_degenerate_offsets "href=\"0123456789".data (some [])
      "1".data 0).1 rfl
  · exact (chooseUrl_degenerate_offsets "href=\"0123456789".data (some [])
      "1".data 3).2 (by decide) (by decide) (by decide)

/-- C8: a reference whose upload data cannot be fully looked up is logged
and its span is left untouched, while the remaining references of the same
post and all subsequent posts are still processed. -/
theorem update_posts_missing_info_skips (p : Post) (rest : List Post)
    (pre suf : List ImgRef) (r : ImgRef)
    (hsort : sortRefsDesc p.flickr_images = pre ++ r :: suf)
    (hmiss : chooseUrl p.content p.upload_info r.flickr_id r.url_start = none) :
    rewriteBody p.content p.upload_info p.flickr_images =
        suf.foldl (rewriteStep p.content p.upload_info)
          ((pre.foldl (rewriteStep p.content p.upload_info) (p.content, [])).1,
            (pre.foldl (rewriteStep p.content p.upload_info) (p.content, [])).2 ++
              [noInfoMsg r.flickr_id]) ∧
      (update_posts yesStr 0 (p :: rest)).1 =
        (rewritePost p).1 :: (update_posts yesStr 0 rest).1 ∧
      (update_posts yesStr 0 (p :: rest)).2.1 =
        (rewritePost p).2.1 ++ (update_posts yesStr 0 rest).2.1 := by
  refine ⟨?_, ?_, ?_⟩
  · unfold rewriteBody
    rw [hsort, List.foldl_append, List.foldl_cons]
    have hstep :
        rewriteStep p.content p.upload_info
            (pre.foldl (rewriteStep p.content p.upload_info) (p.content, [])) r =
          ((pre.foldl (rewriteStep p.content p.upload_info) (p.content, [])).1,
            (pre.foldl (rewriteStep p.content p.upload_info) (p.content, [])).2 ++
              [noInfoMsg r.flickr_id]) := by
      unfold rewriteStep
      rw [hmiss]
    rw [hstep]
  · simp [update_posts]
  · simp [update_posts]

/-- Witness for `update_posts_missing_info_skips`: a single reference with
an empty upload map leaves the body unchanged and logs the id. -/
theorem update_posts_missing_info_skips_witness :
    rewriteBody "abcdef".data (some []) [⟨"9".data, "ab".data, 0, 2⟩] =
      ("abcdef".data, [noInfoMsg "9".data]) := by
  have h := update_posts_missing_info_skips
    ⟨1, [], [], "abcdef".data, [⟨"9".data, "ab".data, 0, 2⟩], some []⟩ [] [] []
    ⟨"9".data, "ab".data, 0, 2⟩ (by decide) (by decide)
  simpa using h.1

theorem sortSpansDesc_perm (l : List Span) : (sortSpansDesc l).Perm l :=
  List.perm_insertionSort _ l

theorem sortSpansAsc_perm (l : List Span) : (sortSpansAsc l).Perm l :=
  List.perm_insertionSort _ l

theorem sortSpansDesc_sorted (l : List Span) :
    (sortSpansDesc l).Pairwise (fun a b => b.url_start ≤ a.url_start) :=
  List.sorted_insertionSort _ l

theorem sortSpansAsc_sorted (l : List Span) :
    (sortSpansAsc l).Pairwise (fun a b => a.url_start ≤ b.url_start) :=
  List.sorted_insertionSort _ l

theorem eq_of_perm_sortedStrictDesc (l₁ : List Span) :
    ∀ l₂ : List Span, l₁.Perm l₂ →
      l₁.Pairwise (fun a b => b.url_start < a.url_start) →
      l₂.Pairwise (fun a b => b.url_start < a.url_start) → l₁ = l₂ := by
  induction l₁ with
  | nil =>
    intro l₂ hp _ _
    exact (List.Perm.eq_nil hp.symm).symm
  | cons a t₁ ih =>
    intro l₂ hp h1 h2
    cases l₂ with
    | nil => exact absurd (List.Perm.eq_nil hp) (by simp)
    | cons b t₂ =>
      by_cases hab : a = b
      · subst hab
        rw [ih t₂ hp.cons_inv (List.pairwise_cons.mp h1).2 (List.pairwise_cons.mp h2).2]
      · exfalso
        have ha2 : a ∈ t₂ := by
          have hmem : a ∈ b :: t₂ := hp.mem_iff.mp (List.mem_cons_self a t₁)
          rcases List.mem_cons.mp hmem with h | h
          · exact absurd h hab
          · exact h
        have hb1 : b ∈ t₁ := by
          have hmem : b ∈ a :: t₁ := hp.mem_iff.mpr (List.mem_cons_self b t₂)
          rcases List.mem_cons.mp hmem with h | h
          · exact absurd h.symm hab
          · exact h
        have hlt1 : b.url_start < a.url_start := (List.pairwise_cons.mp h1).1 b hb1
        have hlt2 : a.url_start < b.url_start := (List.pairwise_cons.mp h2).1 a ha2
        omega

theorem sortDesc_eq_reverse_sortAsc (spans : List Span)
    (hne : spans.Pairwise (fun a b => a.url_start ≠ b.url_start)) :
    sortSpansDesc spans = (sortSpansAsc spans).reverse := by
  have hperm : (sortSpansDesc spans).Perm (sortSpansAsc spans).reverse :=
    ((sortSpansDesc_perm spans).trans (sortSpansAsc_perm spans).symm).trans
      (List.reverse_perm (sortSpansAsc spans)).symm
  have hneD : (sortSpansDesc spans).Pairwise (fun a b => a.url_start ≠ b.url_start) :=
    ((sortSpansDesc_perm spans).pairwise_iff fun h => Ne.symm h).mpr hne
  have hneA : (sortSpansAsc spans).Pairwise (fun a b => a.url_start ≠ b.url_start) :=
    ((sortSpansAsc_perm spans).pairwise_iff fun h => Ne.symm h).mpr hne
  apply eq_of_perm_sortedStrictDesc _ _ hperm
  · exact ((sortSpansDesc_sorted spans).and hneD).imp fun h =>
      Nat.lt_of_le_of_ne h.1 (Ne.symm h.2)
  · rw [List.pairwise_reverse]
    exact ((sortSpansAsc_sorted spans).and hneA).imp fun h =>
      Nat.lt_of_le_of_ne h.1 h.2

theorem pairwise_chain_of_disjoint (l : List Span)
    (hval : ∀ sp ∈ l, sp.url_start < sp.url_end)
    (hsorted : l.Pairwise (fun a b => a.url_start < b.url_start))
    (hdisj : l.Pairwise (fun a b => a.url_end ≤ b.url_start ∨ b.url_end ≤ a.url_start)) :
    l.Pairwise (fun a b => a.url_end ≤ b.url_start) := by
  refine (hsorted.and hdisj).imp_of_mem ?_
  intro a b ha hb h
  rcases h.2 with h2 | h2
  · exact h2
  · have hvb := hval b hb
    have h1 := h.1
    omega

theorem simulFrom_take (s : Str) (rest : List Span) (n : Nat)
    (hn : ∀ sp ∈ rest, n ≤ sp.url_start) (hns : n ≤ s.length) :
    (simulFrom s 0 rest).take n = s.take n := by
  cases rest with
  | nil => simp [simulFrom]
  | cons r₁ rest' =>
    have h1 : n ≤ r₁.url_start := hn r₁ (List.mem_cons_self _ _)
    simp only [simulFrom, Nat.sub_zero, List.drop_zero]
    rw [List.take_append_of_le_length
        (by simp only [List.length_append, List.length_take]; omega),
      List.take_append_of_le_length (by simp only [List.length_take]; omega),
      List.take_take]
    congr 1
    omega

theorem simulFrom_drop (s : Str) (rest : List Span) (n : Nat)
    (hn : ∀ sp ∈ rest, n ≤ sp.url_start) (hns : n ≤ s.length) :
    (simulFrom s 0 rest).drop n = simulFrom s n rest := by
  cases rest with
  | nil => simp [simulFrom]
  | cons r₁ rest' =>
    have h1 : n ≤ r₁.url_start := hn r₁ (List.mem_cons_self _ _)
    simp only [simulFrom, Nat.sub_zero, List.drop_zero]
    rw [List.drop_append_of_le_length
        (by simp only [List.length_append, List.length_take]; omega),
      List.drop_append_of_le_length (by simp only [List.length_take]; omega)]
    congr 2
    rw [List.take_drop]
    congr 2
    omega

theorem foldr_splice_eq_simulFrom (s : Str) (L : List Span)
    (hval : ∀ sp ∈ L, sp.url_start ≤ sp.url_end ∧ sp.url_end ≤ s.length)
    (hchain : L.Pairwise (fun a b => a.url_end ≤ b.url_start)) :
    L.foldr (fun sp acc => splice acc sp.url_start sp.url_end sp.rep) s =
      simulFrom s 0 L := by
  induction L with
  | nil => simp [simulFrom]
  | cons r rest ih =>
    have hr := hval r (List.mem_cons_self _ _)
    have hforall : ∀ sp ∈ rest, r.url_end ≤ sp.url_start := (List.pairwise_cons.mp hchain).1
    rw [List.foldr_cons,
      ih (fun sp h => hval sp (List.mem_cons_of_mem _ h)) (List.pairwise_cons.mp hchain).2]
    unfold splice
    rw [simulFrom_take s rest r.url_start
        (fun sp h => Nat.le_trans hr.1 (hforall sp h)) (Nat.le_trans hr.1 hr.2),
      simulFrom_drop s rest r.url_end hforall hr.2]
    simp [simulFrom]

/-- C1 (amended): for nonempty, pairwise non-overlapping spans with valid
offsets, processing them in descending `url_start` order by splicing into
the evolving string gives the same result as a one-pass simultaneous
substitution against the original string. -/
theorem seqSplice_eq_simulSubst (s : Str) (spans : List Span)
    (hval : ∀ sp ∈ spans, sp.url_start < sp.url_end ∧ sp.url_end ≤ s.length)
    (hdisj : spans.Pairwise
      (fun a b => a.url_end ≤ b.url_start ∨ b.url_end ≤ a.url_start)) :
    seqSplice s spans = simulSubst s spans := by
  have hne : spans.Pairwise (fun a b => a.url_start ≠ b.url_start) := by
    refine hdisj.imp_of_mem ?_
    intro a b ha hb h
    have h1 := hval a ha
    have h2 := hval b hb
    rcases h with h | h <;> omega
  have hpermA := sortSpansAsc_perm spans
  have hvalA : ∀ sp ∈ sortSpansAsc spans,
      sp.url_start < sp.url_end ∧ sp.url_end ≤ s.length :=
    fun sp h => hval sp (hpermA.mem_iff.mp h)
  have hneA : (sortSpansAsc spans).Pairwise (fun a b => a.url_start ≠ b.url_start) :=
    (hpermA.pairwise_iff fun h => Ne.symm h).mpr hne
  have hstrictA : (sortSpansAsc spans).Pairwise (fun a b => a.url_start < b.url_start) :=
    ((sortSpansAsc_sorted spans).and hneA).imp fun h => Nat.lt_of_le_of_ne h.1 h.2
  have hdisjA : (sortSpansAsc spans).Pairwise
      (fun a b => a.url_end ≤ b.url_start ∨ b.url_end ≤ a.url_start) :=
    (hpermA.pairwise_iff fun h => h.symm).mpr hdisj
  have hchain := pairwise_chain_of_disjoint (sortSpansAsc spans)
    (fun sp h => (hvalA sp h).1) hstrictA hdisjA
  unfold seqSplice simulSubst
  rw [sortDesc_eq_reverse_sortAsc spans hne, List.foldl_reverse]
  exact foldr_splice_eq_simulFrom s (sortSpansAsc spans)
    (fun sp h => ⟨Nat.le_of_lt (hvalA sp h).1, (hvalA sp h).2⟩) hchain

/-- Witness for `seqSplice_eq_simulSubst` on two disjoint nonempty spans. -/
theorem seqSplice_eq_simulSubst_witness :
    (∀ sp ∈ ([⟨2, 4, "AB".data⟩, ⟨7, 9, "Z".data⟩] : List Span),
        sp.url_start < sp.url_end ∧ sp.url_end ≤ ("0123456789".data : Str).length) ∧
      seqSplice "0123456789".data [⟨2, 4, "AB".data⟩, ⟨7, 9, "Z".data⟩] =
        simulSubst "0123456789".data [⟨2, 4, "AB".data⟩, ⟨7, 9, "Z".data⟩] :=
  ⟨by decide,
    seqSplice_eq_simulSubst "0123456789".data
      [⟨2, 4, "AB".data⟩, ⟨7, 9, "Z".data⟩] (by decide) (by decide)⟩

/-- C1 counterexample: two empty spans at the same offset are pairwise
non-overlapping (each half-open interval is empty) and have valid indices,
yet descending-order splicing inserts the replacements in the opposite
order from a one-pass simultaneous substitution. -/
theorem seqSplice_counterexample :
    (∀ sp ∈ ([⟨1, 1, "X".data⟩, ⟨1, 1, "Y".data⟩] : List Span),
        sp.url_start ≤ sp.url_end ∧ sp.url_end ≤ ("ab".data : Str).length) ∧
      ([⟨1, 1, "X".data⟩, ⟨1, 1, "Y".data⟩] : List Span).Pairwise
        (fun a b => a.url_end ≤ b.url_start ∨ b.url_end ≤ a.url_start) ∧
      seqSplice "ab".data [⟨1, 1, "X".data⟩, ⟨1, 1, "Y".data⟩] ≠
        simulSubst "ab".data [⟨1, 1, "X".data⟩, ⟨1, 1, "Y".data⟩] :=
  ⟨by decide, by decide, by decide⟩

end F2B
